import Mathlib

/-!
Verification of the codelens-backend retrieval pipeline.

Strings from the Python source are modelled as `List Char`; Python's
`str.strip()` becomes `stripL`; the `while` loop of `chunk_text` becomes a
fuel-indexed recursion (`chunkAux`), with fuel `text.length`, which is shown
sufficient because each iteration advances `start` by at least one when
`chunk_size > overlap` and the loop breaks after one iteration otherwise.
Stateful operations (the Qdrant collection, the embedder, the LLM call, the
web fetch) are modelled by explicit state passing and by `Except`-valued
function parameters standing for the external, possibly failing services.
-/

namespace CodeLens

/-- The whitespace predicate used by Python `str.strip` (modelled by
Lean's `Char.isWhitespace`). -/
def isWS (c : Char) : Bool := c.isWhitespace

/-- Model of Python `str.strip()`: remove leading and trailing whitespace. -/
def stripL (l : List Char) : List Char :=
  ((l.dropWhile isWS).reverse.dropWhile isWS).reverse

/-- `config.py`: `CHUNK_SIZE = 800`. -/
def CHUNK_SIZE : Nat := 800

/-- `config.py`: `CHUNK_OVERLAP = 100`. -/
def CHUNK_OVERLAP : Nat := 100

/-- The `while start < len(text)` loop of `chunk_text` (chunker.py).
Each iteration slices `text[start : start+chunk_size]`, strips it, appends it
when non-empty, advances `start` by `chunk_size - overlap`, and breaks when
`chunk_size <= overlap`.  `fuel` bounds the number of iterations; fuel
`text.length - start` is always sufficient (see `chunk_text`). -/
def chunkAux (text : List Char) (cs ov : Nat) : Nat → Nat → List (List Char)
  | 0, _ => []
  | fuel + 1, start =>
    if start < text.length then
      let chunk := stripL ((text.drop start).take cs)
      let rest := if cs ≤ ov then [] else chunkAux text cs ov fuel (start + (cs - ov))
      if chunk = [] then rest else chunk :: rest
    else []

/-- `chunk_text(text, chunk_size, overlap)` from `rag_engine/chunker.py`:
split text into overlapping chunks; empty input yields `[]`. -/
def chunk_text (text : List Char) (cs ov : Nat) : List (List Char) :=
  if text = [] then [] else chunkAux text cs ov text.length 0

/-- The raw (un-stripped, un-filtered) windows visited by the same loop:
`text[start : start+chunk_size]` at each visited `start`. -/
def rawAux (text : List Char) (cs ov : Nat) : Nat → Nat → List (List Char)
  | 0, _ => []
  | fuel + 1, start =>
    if start < text.length then
      ((text.drop start).take cs) ::
        (if cs ≤ ov then [] else rawAux text cs ov fuel (start + (cs - ov)))
    else []

/-- The raw windows of `chunk_text` on the whole text. -/
def rawChunks (text : List Char) (cs ov : Nat) : List (List Char) :=
  rawAux text cs ov text.length 0

/-- The non-overlapping portion of each window: every window except the last
contributes its first `step` characters (`step = chunk_size - overlap`), the
last window contributes itself entirely. -/
def uniquePortions (step : Nat) : List (List Char) → List (List Char)
  | [] => []
  | [c] => [c]
  | c :: c2 :: rest => c.take step :: uniquePortions step (c2 :: rest)

/-! ### Library-style facts about `dropWhile` and `stripL` -/

theorem length_dropWhile_le (p : Char → Bool) (l : List Char) :
    (l.dropWhile p).length ≤ l.length := by
  induction l with
  | nil => simp [List.dropWhile]
  | cons a t ih =>
    by_cases h : p a
    · simp only [List.dropWhile, h]
      exact Nat.le_trans ih (Nat.le_succ _)
    · simp [List.dropWhile, h]

theorem dropWhile_idem (p : Char → Bool) (l : List Char) :
    (l.dropWhile p).dropWhile p = l.dropWhile p := by
  induction l with
  | nil => simp [List.dropWhile]
  | cons a t ih =>
    by_cases h : p a
    · simpa [List.dropWhile, h] using ih
    · simp [List.dropWhile, h]

theorem dropWhile_eq_self_of_append (p : Char → Bool) (z w : List Char)
    (h : (z ++ w).dropWhile p = z ++ w) : z.dropWhile p = z := by
  cases z with
  | nil => simp [List.dropWhile]
  | cons a t =>
    by_cases hp : p a
    · exfalso
      have h1 : (a :: (t ++ w)).dropWhile p = (t ++ w).dropWhile p := by
        simp [List.dropWhile, hp]
      have h2 : ((t ++ w).dropWhile p).length ≤ (t ++ w).length :=
        length_dropWhile_le p _
      rw [List.cons_append] at h
      have h4 : a :: (t ++ w) = (t ++ w).dropWhile p := h.symm.trans h1
      have h5 := congrArg List.length h4
      rw [List.length_cons] at h5
      omega
    · simp [List.dropWhile, hp]

theorem mem_dropWhile_of_not (p : Char → Bool) (c : Char) :
    ∀ l : List Char, c ∈ l → ¬(p c = true) → c ∈ l.dropWhile p := by
  intro l
  induction l with
  | nil => intro h; exact absurd h (List.not_mem_nil c)
  | cons a t ih =>
    intro hmem hpc
    by_cases hpa : p a
    · rcases List.mem_cons.mp hmem with h | h
      · exact absurd (h ▸ hpa) hpc
      · simpa [List.dropWhile, hpa] using ih h hpc
    · simpa [List.dropWhile, hpa] using hmem

theorem stripL_ne_nil_of_mem (l : List Char) (c : Char) (hc : c ∈ l)
    (hw : ¬(isWS c = true)) : stripL l ≠ [] := by
  have h1 : c ∈ l.dropWhile isWS := mem_dropWhile_of_not isWS c l hc hw
  have h2 : c ∈ (l.dropWhile isWS).reverse := List.mem_reverse.mpr h1
  have h3 : c ∈ (l.dropWhile isWS).reverse.dropWhile isWS :=
    mem_dropWhile_of_not isWS c _ h2 hw
  intro hnil
  unfold stripL at hnil
  rw [List.reverse_eq_nil_iff] at hnil
  rw [hnil] at h3
  exact List.not_mem_nil c h3

theorem stripL_eq_nil_all_ws (l : List Char) (h : stripL l = []) :
    ∀ c ∈ l, isWS c = true := by
  intro c hc
  by_contra hw
  exact stripL_ne_nil_of_mem l c hc hw h

theorem stripL_length_le (l : List Char) : (stripL l).length ≤ l.length := by
  unfold stripL
  calc ((l.dropWhile isWS).reverse.dropWhile isWS).reverse.length
      = ((l.dropWhile isWS).reverse.dropWhile isWS).length := by
        rw [List.length_reverse]
    _ ≤ (l.dropWhile isWS).reverse.length := length_dropWhile_le _ _
    _ = (l.dropWhile isWS).length := by rw [List.length_reverse]
    _ ≤ l.length := length_dropWhile_le _ _

theorem stripL_idem (l : List Char) : stripL (stripL l) = stripL l := by
  have hd : (l.dropWhile isWS).dropWhile isWS = l.dropWhile isWS :=
    dropWhile_idem isWS l
  set d := l.dropWhile isWS with hdd
  set m := d.reverse.dropWhile isWS with hmm
  have hsplit : d.reverse.takeWhile isWS ++ m = d.reverse := by
    rw [hmm]
    exact List.takeWhile_append_dropWhile isWS d.reverse
  have hdrev : d = m.reverse ++ (d.reverse.takeWhile isWS).reverse := by
    have := congrArg List.reverse hsplit
    rw [List.reverse_append, List.reverse_reverse] at this
    exact this.symm
  have hm1 : m.reverse.dropWhile isWS = m.reverse := by
    apply dropWhile_eq_self_of_append isWS m.reverse ((d.reverse.takeWhile isWS).reverse)
    rw [← hdrev]
    exact hd
  have hstrip : stripL l = m.reverse := by
    unfold stripL
    rw [← hdd, ← hmm]
  rw [hstrip]
  unfold stripL
  rw [hm1, List.reverse_reverse, hmm, dropWhile_idem isWS d.reverse]

/-! ### Structure of the chunking loop -/

theorem chunkAux_eq_rawAux (text : List Char) (cs ov : Nat) :
    ∀ fuel start, chunkAux text cs ov fuel start =
      ((rawAux text cs ov fuel start).map stripL).filter (fun c => !c.isEmpty) := by
  intro fuel
  induction fuel with
  | zero => intro start; simp [chunkAux, rawAux]
  | succ f ih =>
    intro start
    by_cases hlt : start < text.length
    · simp only [chunkAux, rawAux, if_pos hlt, List.map_cons, List.filter_cons]
      by_cases hbrk : cs ≤ ov
      · simp only [if_pos hbrk, List.map_nil, List.filter_nil]
        by_cases hnil : stripL ((text.drop start).take cs) = []
        · simp [hnil, List.isEmpty_iff]
        · simp [hnil, List.isEmpty_iff]
      · simp only [if_neg hbrk, ih]
        by_cases hnil : stripL ((text.drop start).take cs) = []
        · simp [hnil, List.isEmpty_iff]
        · simp [hnil, List.isEmpty_iff]
    · simp [chunkAux, rawAux, if_neg hlt]

theorem rawAux_eq_nil (text : List Char) (cs ov : Nat) :
    ∀ fuel start, text.length ≤ start → rawAux text cs ov fuel start = [] := by
  intro fuel start h
  cases fuel with
  | zero => simp [rawAux]
  | succ f => simp [rawAux, Nat.not_lt.mpr h]

theorem rawAux_length_le (text : List Char) (cs ov : Nat) :
    ∀ fuel start, (rawAux text cs ov fuel start).length ≤ fuel := by
  intro fuel
  induction fuel with
  | zero => intro start; simp [rawAux]
  | succ f ih =>
    intro start
    by_cases hlt : start < text.length
    · simp only [rawAux, if_pos hlt, List.length_cons]
      by_cases hbrk : cs ≤ ov
      · simp [hbrk]
      · simp only [if_neg hbrk]
        exact Nat.succ_le_succ (ih _)
    · simp [rawAux, if_neg hlt]

theorem mem_rawAux_length_le (text : List Char) (cs ov : Nat) :
    ∀ fuel start w, w ∈ rawAux text cs ov fuel start → w.length ≤ cs := by
  intro fuel
  induction fuel with
  | zero => intro start w hw; simp [rawAux] at hw
  | succ f ih =>
    intro start w hw
    by_cases hlt : start < text.length
    · simp only [rawAux, if_pos hlt] at hw
      rcases List.mem_cons.mp hw with h | h
      · subst h
        rw [List.length_take]
        exact Nat.min_le_left _ _
      · by_cases hbrk : cs ≤ ov
        · simp [hbrk] at h
        · rw [if_neg hbrk] at h
          exact ih _ w h
    · simp [rawAux, if_neg hlt] at hw

/-- Concatenating the unique (non-overlapping) portions of the raw windows from
offset `start` reconstructs `text.drop start` exactly. -/
theorem rawAux_join (text : List Char) (cs ov : Nat) (hcs : ov < cs) :
    ∀ fuel start, start < text.length → text.length - start ≤ fuel →
      (uniquePortions (cs - ov) (rawAux text cs ov fuel start)).flatten = text.drop start := by
  intro fuel
  induction fuel with
  | zero => intro start h1 h2; omega
  | succ f ih =>
    intro start h1 h2
    have hbrk : ¬ cs ≤ ov := Nat.not_le.mpr hcs
    have hstep : 1 ≤ cs - ov := by omega
    simp only [rawAux, if_pos h1, if_neg hbrk]
    by_cases hnext : text.length ≤ start + (cs - ov)
    · rw [rawAux_eq_nil text cs ov f _ hnext]
      simp only [uniquePortions, List.flatten_cons, List.flatten_nil, List.append_nil]
      apply List.take_of_length_le
      rw [List.length_drop]
      omega
    · push_neg at hnext
      have hf : text.length - (start + (cs - ov)) ≤ f := by omega
      have hrest := ih (start + (cs - ov)) hnext hf
      have hcons : rawAux text cs ov f (start + (cs - ov)) =
          ((text.drop (start + (cs - ov))).take cs) ::
            (if cs ≤ ov then [] else
              rawAux text cs ov (f - 1) (start + (cs - ov) + (cs - ov))) := by
        cases f with
        | zero => omega
        | succ f2 => simp [rawAux, if_pos hnext]
      rw [hcons]
      rw [hcons] at hrest
      simp only [uniquePortions, List.flatten_cons] at hrest ⊢
      rw [hrest]
      rw [List.take_take]
      have hmin : min (cs - ov) cs = cs - ov := Nat.min_eq_left (Nat.sub_le cs ov)
      rw [hmin]
      exact List.drop_take_append_drop text start (cs - ov)

/-- If the suffix `text.drop start` contains a non-whitespace character, the
chunking loop emits at least one chunk. -/
theorem chunkAux_ne_nil (text : List Char) (cs ov : Nat) (hcs : ov < cs) :
    ∀ fuel start, start < text.length → text.length - start ≤ fuel →
      (∃ c ∈ text.drop start, ¬(isWS c = true)) →
      chunkAux text cs ov fuel start ≠ [] := by
  intro fuel
  induction fuel with
  | zero => intro start h1 h2; omega
  | succ f ih =>
    intro start h1 h2 hex
    have hbrk : ¬ cs ≤ ov := Nat.not_le.mpr hcs
    simp only [chunkAux, if_pos h1, if_neg hbrk]
    by_cases hnil : stripL ((text.drop start).take cs) = []
    · rw [if_pos hnil]
      obtain ⟨c, hc, hw⟩ := hex
      have hcw : c ∉ (text.drop start).take cs := by
        intro hmem
        exact hw (stripL_eq_nil_all_ws _ hnil c hmem)
      have hcdrop : c ∈ (text.drop start).drop cs := by
        have := List.take_append_drop cs (text.drop start)
        rw [← this] at hc
        rcases List.mem_append.mp hc with h | h
        · exact absurd h hcw
        · exact h
      have hcdeep : c ∈ text.drop (start + cs) := by
        rw [List.drop_drop] at hcdrop
        exact hcdrop
      have hcd2 : c ∈ text.drop (start + (cs - ov)) := by
        have hsplit : text.drop (start + cs) =
            (text.drop (start + (cs - ov))).drop (cs - (cs - ov)) := by
          rw [List.drop_drop]
          congr 1
          omega
        rw [hsplit] at hcdeep
        exact List.mem_of_mem_drop hcdeep
      have hlt2 : start + (cs - ov) < text.length := by
        have : text.drop (start + (cs - ov)) ≠ [] := by
          intro hz; rw [hz] at hcd2; exact List.not_mem_nil c hcd2
        rw [ne_eq, List.drop_eq_nil_iff] at this
        omega
      exact ih (start + (cs - ov)) hlt2 (by omega) ⟨c, hcd2, hw⟩
    · rw [if_neg hnil]
      exact List.cons_ne_nil _ _

/-! ## Claim C1 — chunk_text: non-emptiness, reconstruction, size bound -/

/-- C1 counterexample: the claim as stated fails.  The single-space string is
non-empty and `chunk_size = 2 > overlap = 0`, yet `chunk_text` returns the
empty list, because the only window strips to the empty string and empty
chunks are skipped. -/
theorem chunk_text_cex : chunk_text [' '] 2 0 = [] := by decide

/-- C1 (amended): for `chunk_size > overlap` and text containing at least one
non-whitespace character, `chunk_text` returns a non-empty list; no chunk
exceeds `chunk_size` characters; the unique (non-overlapping) portions of the
loop's raw windows concatenate to exactly `text`; and the returned chunks are
exactly the whitespace-stripped raw windows with the empty ones dropped (the
"up to whitespace normalization" link between the chunks and the text). -/
theorem chunk_text_spec_amended (text : List Char) (cs ov : Nat)
    (hcs : ov < cs) (hex : ∃ c ∈ text, ¬(isWS c = true)) :
    chunk_text text cs ov ≠ [] ∧
    (∀ c ∈ chunk_text text cs ov, c.length ≤ cs) ∧
    (uniquePortions (cs - ov) (rawChunks text cs ov)).flatten = text ∧
    chunk_text text cs ov =
      ((rawChunks text cs ov).map stripL).filter (fun c => !c.isEmpty) := by
  have hne : text ≠ [] := by
    obtain ⟨c, hc, _⟩ := hex
    intro h; rw [h] at hc; exact List.not_mem_nil c hc
  have hlen : 0 < text.length := List.length_pos.mpr hne
  refine ⟨?_, ?_, ?_, ?_⟩
  · unfold chunk_text
    rw [if_neg hne]
    apply chunkAux_ne_nil text cs ov hcs text.length 0 hlen (by omega)
    simpa using hex
  · intro c hc
    unfold chunk_text at hc
    rw [if_neg hne, chunkAux_eq_rawAux] at hc
    have hc2 := List.mem_of_mem_filter hc
    obtain ⟨w, hw, hcw⟩ := List.mem_map.mp hc2
    rw [← hcw]
    exact Nat.le_trans (stripL_length_le w) (mem_rawAux_length_le text cs ov _ _ w hw)
  · unfold rawChunks
    have := rawAux_join text cs ov hcs text.length 0 hlen (by omega)
    simpa using this
  · unfold chunk_text rawChunks
    rw [if_neg hne]
    exact chunkAux_eq_rawAux text cs ov text.length 0

/-- C1 amended, instantiated at `text = "abc"`, `chunk_size = 2`,
`overlap = 1`. -/
theorem chunk_text_spec_amended_witness :
    chunk_text ['a', 'b', 'c'] 2 1 ≠ [] ∧
    (∀ c ∈ chunk_text ['a', 'b', 'c'] 2 1, c.length ≤ 2) ∧
    (uniquePortions 1 (rawChunks ['a', 'b', 'c'] 2 1)).flatten = ['a', 'b', 'c'] ∧
    chunk_text ['a', 'b', 'c'] 2 1 =
      ((rawChunks ['a', 'b', 'c'] 2 1).map stripL).filter (fun c => !c.isEmpty) :=
  chunk_text_spec_amended ['a', 'b', 'c'] 2 1 (by decide) ⟨'a', by decide, by decide⟩

/-! ## Claim C2 — chunk_text terminates; overlap ≥ chunk_size emits ≤ 1 chunk -/

/-- C2 counterexample: with `overlap = 1 ≥ chunk_size = 1` and the non-empty
input `" "`, the loop performs its single iteration, strips the only window to
the empty string, skips it, and breaks — emitting zero chunks, not exactly
one. -/
theorem chunk_text_break_cex : (chunk_text [' '] 1 1).length ≠ 1 := by decide

/-- C2 (amended): for every input and parameters the result is a finite list of
at most `text.length` chunks (the loop terminates); and when
`chunk_size ≤ overlap` the break statement makes the loop run exactly one
iteration, so at most one chunk is emitted. -/
theorem chunk_text_finite (text : List Char) (cs ov : Nat) :
    (chunk_text text cs ov).length ≤ text.length ∧
    (cs ≤ ov → (chunk_text text cs ov).length ≤ 1) := by
  constructor
  · unfold chunk_text
    by_cases hne : text = []
    · simp [hne]
    · rw [if_neg hne, chunkAux_eq_rawAux]
      calc (((rawAux text cs ov text.length 0).map stripL).filter
              (fun c => !c.isEmpty)).length
          ≤ ((rawAux text cs ov text.length 0).map stripL).length :=
            List.length_filter_le _ _
        _ = (rawAux text cs ov text.length 0).length := List.length_map _ _
        _ ≤ text.length := rawAux_length_le text cs ov _ _
  · intro hbrk
    unfold chunk_text
    by_cases hne : text = []
    · simp [hne]
    · rw [if_neg hne]
      have hlen : 0 < text.length := List.length_pos.mpr hne
      obtain ⟨n, hn⟩ : ∃ n, text.length = n + 1 :=
        ⟨text.length - 1, by omega⟩
      rw [hn]
      simp only [chunkAux, if_pos hbrk, List.drop_zero]
      rw [if_pos hlen]
      by_cases hnil : stripL (text.take cs) = []
      · simp [hnil]
      · simp [hnil]

/-- C2 amended, instantiated at `text = "ab"`, `chunk_size = 1`,
`overlap = 1`. -/
theorem chunk_text_finite_witness :
    (chunk_text ['a', 'b'] 1 1).length ≤ 2 ∧
    (1 ≤ 1 → (chunk_text ['a', 'b'] 1 1).length ≤ 1) :=
  chunk_text_finite ['a', 'b'] 1 1

/-! ## Claim C10 — every returned chunk is non-empty and fully stripped -/

/-- C10: every chunk returned by `chunk_text` is non-empty and carries no
leading or trailing whitespace: it equals its own whitespace-stripped form. -/
theorem chunk_text_stripped (text : List Char) (cs ov : Nat) (c : List Char)
    (hc : c ∈ chunk_text text cs ov) : c ≠ [] ∧ stripL c = c := by
  unfold chunk_text at hc
  by_cases hne : text = []
  · rw [if_pos hne] at hc
    exact absurd hc (List.not_mem_nil c)
  · rw [if_neg hne, chunkAux_eq_rawAux] at hc
    constructor
    · have hp := List.of_mem_filter hc
      simpa [List.isEmpty_iff] using hp
    · have hc2 := List.mem_of_mem_filter hc
      obtain ⟨w, _, hcw⟩ := List.mem_map.mp hc2
      rw [← hcw]
      exact stripL_idem w

/-- C10 instantiated: the single chunk of `chunk_text "a" 1 0`. -/
theorem chunk_text_stripped_witness : (['a'] : List Char) ≠ [] ∧ stripL ['a'] = ['a'] :=
  chunk_text_stripped ['a'] 1 0 ['a'] (by decide)

/-! ## Retrieval pipeline — `rag_engine/retriever.py`

The Qdrant collection is modelled as a list of stored points; `upsert` appends
to it.  The embedder is an explicit function parameter `embed` (vector type
`V` abstract); point ids (`uuid.uuid4()`) are irrelevant to the claims and
omitted.  Caller-supplied metadata is an abstract type `M` merged into every
payload. -/

/-- Payload stored with each point: `{"text": chunk, "chunk_index": i,
**metadata}`. -/
structure Payload (M : Type) where
  text : List Char
  chunk_index : Nat
  meta : M
deriving DecidableEq

/-- A point in the Qdrant collection (id omitted). -/
structure StoredPoint (V M : Type) where
  vector : V
  payload : Payload M
deriving DecidableEq

/-- `for i, (chunk, vector) in enumerate(zip(batch_chunks, vectors))`:
construct the points of one batch; `idx` is the running `batch_start`. -/
def mkPoints (m : M) : List (List Char) → List V → Nat → List (StoredPoint V M)
  | c :: cs2, v :: vs, idx => ⟨v, ⟨c, idx, m⟩⟩ :: mkPoints m cs2 vs (idx + 1)
  | _, _, _ => []

/-- The `for batch_start in range(0, len(chunks), batch_size)` loop of
`add_document`: embed each batch and upsert it (append to the store) before
the next.  `fuel` bounds the batch count; `chunks.length` suffices when
`batch_size ≥ 1`. -/
def uploadBatches (embed : List (List Char) → List V) (m : M) (bs : Nat) :
    Nat → List (List Char) → Nat → List (StoredPoint V M) → List (StoredPoint V M)
  | 0, _, _, store => store
  | fuel + 1, chunks, idx, store =>
    if chunks = [] then store
    else
      uploadBatches embed m bs fuel (chunks.drop bs) (idx + bs)
        (store ++ mkPoints m (chunks.take bs) (embed (chunks.take bs)) idx)

/-- `add_document(text, metadata, batch_size)` from `rag_engine/retriever.py`:
chunk with the configured defaults, return 0 on no chunks, otherwise upload in
batches and return the chunk count.  Returns the count paired with the new
store state. -/
def add_document (embed : List (List Char) → List V) (text : List Char) (m : M)
    (bs : Nat) (store : List (StoredPoint V M)) : Nat × List (StoredPoint V M) :=
  let chunks := chunk_text text CHUNK_SIZE CHUNK_OVERLAP
  if chunks = [] then (0, store)
  else (chunks.length, uploadBatches embed m bs chunks.length chunks 0 store)

/-! ## Claim C3 — add_document with zero chunks returns 0 and writes nothing -/

/-- C3: if chunking the text yields no chunks, `add_document` returns 0 and
the store is unchanged. -/
theorem add_document_empty {V M : Type} (embed : List (List Char) → List V)
    (text : List Char) (m : M) (bs : Nat) (store : List (StoredPoint V M))
    (h : chunk_text text CHUNK_SIZE CHUNK_OVERLAP = []) :
    add_document embed text m bs store = (0, store) := by
  unfold add_document
  rw [h]
  simp

/-- Embedder used only to instantiate witnesses: one unit vector per text. -/
def unitEmbed : List (List Char) → List Unit := fun l => l.map (fun _ => ())

/-- C3 instantiated at the empty text, for which chunking yields no chunks. -/
theorem add_document_empty_witness :
    add_document unitEmbed [] () 10 [] = (0, []) :=
  add_document_empty unitEmbed [] () 10 [] (by decide)

/-! ## Claim C4 — chunk_index is the document-order position; count returned -/

theorem mkPoints_spec (M V : Type) (m : M) :
    ∀ (chunks : List (List Char)) (vecs : List V) (idx : Nat),
      vecs.length = chunks.length →
      (mkPoints m chunks vecs idx).map (fun p => p.payload.chunk_index) =
          List.range' idx chunks.length ∧
      (mkPoints m chunks vecs idx).map (fun p => p.payload.text) = chunks ∧
      ∀ p ∈ mkPoints m chunks vecs idx, p.payload.meta = m := by
  intro chunks
  induction chunks with
  | nil =>
    intro vecs idx h
    refine ⟨?_, ?_, ?_⟩ <;> simp [mkPoints]
  | cons c cs2 ih =>
    intro vecs idx h
    cases vecs with
    | nil => simp at h
    | cons v vs =>
      simp only [List.length_cons] at h
      obtain ⟨h1, h2, h3⟩ := ih vs (idx + 1) (Nat.succ_injective h)
      refine ⟨?_, ?_, ?_⟩
      · simp only [mkPoints, List.map_cons, h1, List.length_cons, List.range'_succ]
      · simp only [mkPoints, List.map_cons, h2]
      · intro p hp
        rcases List.mem_cons.mp hp with hph | hph
        · rw [hph]
        · exact h3 p hph

theorem uploadBatches_spec (V M : Type) (embed : List (List Char) → List V)
    (m : M) (bs : Nat) (hbs : 0 < bs)
    (hembed : ∀ l, (embed l).length = l.length) :
    ∀ (fuel : Nat) (chunks : List (List Char)) (idx : Nat)
      (store : List (StoredPoint V M)), chunks.length ≤ fuel →
      ∃ pts, uploadBatches embed m bs fuel chunks idx store = store ++ pts ∧
        pts.map (fun p => p.payload.chunk_index) = List.range' idx chunks.length ∧
        pts.map (fun p => p.payload.text) = chunks ∧
        ∀ p ∈ pts, p.payload.meta = m := by
  intro fuel
  induction fuel with
  | zero =>
    intro chunks idx store h
    have : chunks = [] := List.length_eq_zero.mp (Nat.le_zero.mp h)
    subst this
    exact ⟨[], by simp [uploadBatches], by simp, by simp, by simp⟩
  | succ f ih =>
    intro chunks idx store h
    by_cases hnil : chunks = []
    · subst hnil
      exact ⟨[], by simp [uploadBatches], by simp, by simp, by simp⟩
    · have hlen : 0 < chunks.length := List.length_pos.mpr hnil
      have hrest : (chunks.drop bs).length ≤ f := by
        rw [List.length_drop]
        omega
      obtain ⟨pts2, heq2, hidx2, htxt2, hmeta2⟩ :=
        ih (chunks.drop bs) (idx + bs)
          (store ++ mkPoints m (chunks.take bs) (embed (chunks.take bs)) idx) hrest
      obtain ⟨hidx1, htxt1, hmeta1⟩ :=
        mkPoints_spec M V m (chunks.take bs) (embed (chunks.take bs)) idx
          (hembed (chunks.take bs))
      refine ⟨mkPoints m (chunks.take bs) (embed (chunks.take bs)) idx ++ pts2,
        ?_, ?_, ?_, ?_⟩
      · simp only [uploadBatches, if_neg hnil]
        rw [heq2, List.append_assoc]
      · rw [List.map_append, hidx1, hidx2]
        have htake : (chunks.take bs).length = min bs chunks.length :=
          List.length_take bs chunks
        have hdrop : (chunks.drop bs).length = chunks.length - bs :=
          List.length_drop bs chunks
        rw [htake, hdrop]
        by_cases hle : chunks.length ≤ bs
        · have h1 : min bs chunks.length = chunks.length := Nat.min_eq_right hle
          have h2 : chunks.length - bs = 0 := Nat.sub_eq_zero_of_le hle
          rw [h1, h2]
          simp
        · push_neg at hle
          have h1 : min bs chunks.length = bs := Nat.min_eq_left (Nat.le_of_lt hle)
          rw [h1]
          have := List.range'_append idx bs (chunks.length - bs) 1
          simp only [Nat.one_mul] at this
          rw [this]
          congr 1
          omega
      · rw [List.map_append, htxt1, htxt2, List.take_append_drop]
      · intro p hp
        rcases List.mem_append.mp hp with hph | hph
        · exact hmeta1 p hph
        · exact hmeta2 p hph

/-- C4: for every ingested document, `add_document` returns the number of
chunks, and the store gains exactly the document's chunks in document order,
the i-th carrying payload `chunk_index = i` (across all batches) and the
shared metadata.  Hypotheses: a positive batch size (Python's default is 10;
`range` would reject 0) and an embedder returning one vector per input. -/
theorem add_document_spec (V M : Type) (embed : List (List Char) → List V)
    (text : List Char) (m : M) (bs : Nat) (store : List (StoredPoint V M))
    (hbs : 0 < bs) (hembed : ∀ l, (embed l).length = l.length) :
    (add_document embed text m bs store).1 =
        (chunk_text text CHUNK_SIZE CHUNK_OVERLAP).length ∧
    ∃ pts, (add_document embed text m bs store).2 = store ++ pts ∧
      pts.map (fun p => p.payload.chunk_index) =
          List.range (chunk_text text CHUNK_SIZE CHUNK_OVERLAP).length ∧
      pts.map (fun p => p.payload.text) = chunk_text text CHUNK_SIZE CHUNK_OVERLAP ∧
      ∀ p ∈ pts, p.payload.meta = m := by
  by_cases hnil : chunk_text text CHUNK_SIZE CHUNK_OVERLAP = []
  · constructor
    · rw [add_document_empty embed text m bs store hnil, hnil]
      simp
    · refine ⟨[], ?_, ?_, ?_, ?_⟩
      · rw [add_document_empty embed text m bs store hnil]
        simp
      · rw [hnil]; simp
      · rw [hnil]; simp
      · simp
  · obtain ⟨pts, heq, hidx, htxt, hmeta⟩ :=
      uploadBatches_spec V M embed m bs hbs hembed
        (chunk_text text CHUNK_SIZE CHUNK_OVERLAP).length
        (chunk_text text CHUNK_SIZE CHUNK_OVERLAP) 0 store (Nat.le_refl _)
    constructor
    · unfold add_document
      rw [if_neg hnil]
    · refine ⟨pts, ?_, ?_, htxt, hmeta⟩
      · unfold add_document
        rw [if_neg hnil]
        exact heq
      · rw [hidx, List.range_eq_range']

/-- C4 instantiated at text `"a"` (one chunk), unit embedder, batch size 10. -/
theorem add_document_spec_witness :
    (add_document unitEmbed ['a'] () 10 []).1 =
        (chunk_text ['a'] CHUNK_SIZE CHUNK_OVERLAP).length ∧
    ∃ pts, (add_document unitEmbed ['a'] () 10 []).2 = [] ++ pts ∧
      pts.map (fun p => p.payload.chunk_index) =
          List.range (chunk_text ['a'] CHUNK_SIZE CHUNK_OVERLAP).length ∧
      pts.map (fun p => p.payload.text) = chunk_text ['a'] CHUNK_SIZE CHUNK_OVERLAP ∧
      ∀ p ∈ pts, p.payload.meta = () :=
  add_document_spec Unit Unit unitEmbed ['a'] () 10 [] (by decide)
    (fun l => by simp [unitEmbed])

/-! ## `search_documents` — `rag_engine/retriever.py`

The query embedding and the Qdrant search are external calls that can raise;
they are modelled as `Except`-valued parameters (`E` the exception type).  A
hit's payload is a dictionary: its `"text"` and `"source"` keys may be absent
(`Option`), the rest is abstract. -/

/-- A Qdrant search hit's payload: `payload.get("text", "")` and
`payload.get("source", "unknown")` read the two optional keys; `rest` stands
for the remaining entries. -/
structure HitPayload (M : Type) where
  text? : Option (List Char)
  source? : Option (List Char)
  rest : M
deriving DecidableEq

/-- A raw search hit returned by the vector store: a score (abstract type `S`)
and a payload. -/
structure Hit (S M : Type) where
  score : S
  payload : HitPayload M
deriving DecidableEq

/-- One formatted entry of the list `search_documents` returns. -/
structure SearchResult (S M : Type) where
  text : List Char
  score : S
  source : List Char
  metadata : HitPayload M
deriving DecidableEq

/-- The `"unknown"` default source label. -/
def unknownSource : List Char := ("unknown").toList

/-- Formatting of one hit inside `search_documents`. -/
def formatHit (h : Hit S M) : SearchResult S M :=
  ⟨h.payload.text?.getD [], h.score, h.payload.source?.getD unknownSource, h.payload⟩

/-- `search_documents(query, top_k)` from `rag_engine/retriever.py`: embed the
query, search the store with `limit=top_k`, format the hits; the enclosing
`try/except` turns any exception into the empty list.  `embed_query` is the
(possibly failing) embedding of the caller's query; `storeSearch` the
(possibly failing) vector-store search. -/
def search_documents (embed_query : Except E V)
    (storeSearch : V → Nat → Except E (List (Hit S M))) (top_k : Nat) :
    List (SearchResult S M) :=
  match embed_query with
  | .error _ => []
  | .ok qv =>
    match storeSearch qv top_k with
    | .error _ => []
    | .ok hits => hits.map formatHit

/-! ## Claim C5 — search_documents never propagates an error -/

/-- C5: `search_documents` is a total function into lists (it cannot raise),
and whenever the embedding fails, the store search fails, or the collection is
empty/uninitialized (the search yields no hits), it returns the empty list. -/
theorem search_documents_safe (E V S M : Type) (embed_query : Except E V)
    (storeSearch : V → Nat → Except E (List (Hit S M))) (top_k : Nat)
    (h : (∃ e, embed_query = Except.error e) ∨
         (∃ v e, embed_query = Except.ok v ∧ storeSearch v top_k = Except.error e) ∨
         (∃ v, embed_query = Except.ok v ∧ storeSearch v top_k = Except.ok [])) :
    search_documents embed_query storeSearch top_k = [] := by
  rcases h with ⟨e, he⟩ | ⟨v, e, hv, he⟩ | ⟨v, hv, he⟩
  · simp [search_documents, he]
  · simp [search_documents, hv, he]
  · simp [search_documents, hv, he]

/-- C5 instantiated: a failing embedder (unit error type). -/
theorem search_documents_safe_witness :
    search_documents (Except.error () : Except Unit Unit)
      (fun _ _ => Except.ok ([] : List (Hit Unit Unit))) 5 = [] :=
  search_documents_safe Unit Unit Unit Unit (Except.error ())
    (fun _ _ => Except.ok []) 5 (Or.inl ⟨(), rfl⟩)

/-! ## Answer generator — `backend/rag_engine/generator.py`

The Groq chat-completion call is the external, possibly failing step: it is a
parameter `llm` taking the system prompt and the user prompt and returning
either the generated text or the exception's message (`str(e)`). -/

/-- The fixed "insufficient information" answer. -/
def insufficientAnswer : List Char :=
  ("I don\x27t have enough information to answer that question. Please update the knowledge base.").toList

/-- `config.py`: `LLM_MODEL = "llama-3.3-70b-versatile"`. -/
def LLM_MODEL : List Char := ("llama-3.3-70b-versatile").toList

/-- One entry of the `sources` list: source label, score, and a preview of the
first 200 characters (with `"..."` appended when truncated). -/
structure SourceEntry (S : Type) where
  source : List Char
  score : S
  text_preview : List Char
deriving DecidableEq

/-- Building one `sources` entry from a search result. -/
def mkSourceEntry (r : SearchResult S M) : SourceEntry S :=
  ⟨r.source, r.score,
    if 200 < r.text.length then r.text.take 200 ++ ("...").toList else r.text⟩

/-- Python `sep.join(parts)`. -/
def joinSep (sep : List Char) : List (List Char) → List Char
  | [] => []
  | [x] => x
  | x :: y :: rest => x ++ sep ++ joinSep sep (y :: rest)

/-- The `"\n\n"` separator. -/
def nl2 : List Char := ['\n', '\n']

/-- Decimal digits of a number, for the `[Source {i}]` labels. -/
def natDigits (n : Nat) : List Char := Nat.toDigits 10 n

/-- `[f"[Source {i}]: {text}" for i, result in enumerate(search_results, 1)]`. -/
def contextParts (results : List (SearchResult S M)) : List (List Char) :=
  results.enum.map
    (fun p => ("[Source ").toList ++ natDigits (p.1 + 1) ++ ("]: ").toList ++ p.2.text)

/-- The fixed system prompt of `generate_answer`. -/
def systemPrompt : List Char :=
  ("You are CodeLens, an expert AI assistant for developers. \nYour role is to answer questions about developer documentation and frameworks accurately.\n\nInstructions:\n- Use ONLY the provided context to answer questions\n- If the context doesn\x27t contain the answer, say so honestly\n- Be concise but comprehensive\n- Use code examples when relevant\n- Cite sources when possible using [Source N] notation\n- Format your answers with proper markdown when appropriate").toList

/-- The user prompt embedding the retrieved context and the query. -/
def userPrompt (context query : List Char) : List Char :=
  ("Context from documentation:\n").toList ++ context ++
    ("\n\nQuestion: ").toList ++ query ++ ("\n\nAnswer:").toList

/-- The dictionary `generate_answer` returns.  `model?` and `error?` are
`Option`s because the corresponding keys are present only in the success and
the error payloads respectively. -/
structure GenResult (S M : Type) where
  answer : List Char
  sources : List (SourceEntry S)
  context_used : Bool
  model? : Option (List Char)
  error? : Option (List Char)
deriving DecidableEq

/-- `generate_answer(query, top_k)` from `backend/rag_engine/generator.py`:
retrieve context via `search_documents`; with no results return the fixed
insufficient-information payload; otherwise build the prompt and call the LLM;
the enclosing `try/except` turns any exception `e` into an error payload with
answer `"Error generating answer: " + str(e)`, no sources, and
`context_used = False`. -/
def generate_answer (embed_query : Except E V)
    (storeSearch : V → Nat → Except E (List (Hit S M)))
    (llm : List Char → List Char → Except (List Char) (List Char))
    (query : List Char) (top_k : Nat) : GenResult S M :=
  let search_results := search_documents embed_query storeSearch top_k
  if search_results.isEmpty then
    ⟨insufficientAnswer, [], false, none, none⟩
  else
    let sources := search_results.map mkSourceEntry
    let context := joinSep nl2 (contextParts search_results)
    match llm systemPrompt (userPrompt context query) with
    | .ok ans => ⟨ans, sources, true, some LLM_MODEL, none⟩
    | .error e =>
        ⟨("Error generating answer: ").toList ++ e, [], false, none, some e⟩

/-! ## Claim C6 — no retrieved context ⇒ fixed answer, no sources, flag false -/

/-- C6: when retrieval returns no results, `generate_answer` returns the fixed
insufficient-information answer with an empty sources list and
`context_used = false`. -/
theorem generate_answer_no_context (E V S M : Type) (embed_query : Except E V)
    (storeSearch : V → Nat → Except E (List (Hit S M)))
    (llm : List Char → List Char → Except (List Char) (List Char))
    (query : List Char) (top_k : Nat)
    (h : search_documents embed_query storeSearch top_k = []) :
    generate_answer embed_query storeSearch llm query top_k =
      ⟨insufficientAnswer, [], false, none, none⟩ := by
  simp [generate_answer, h]

/-- C6 instantiated: an empty collection. -/
theorem generate_answer_no_context_witness :
    generate_answer (Except.ok () : Except Unit Unit)
      (fun _ _ => Except.ok ([] : List (Hit Unit Unit)))
      (fun _ _ => Except.ok []) [] 3 =
      ⟨insufficientAnswer, [], false, none, none⟩ :=
  generate_answer_no_context Unit Unit Unit Unit (Except.ok ())
    (fun _ _ => Except.ok []) (fun _ _ => Except.ok []) [] 3 rfl

/-! ## Claim C7 — generate_answer never throws: LLM failures are caught -/

/-- C7: `generate_answer` is a total function (it cannot raise); whenever the
LLM is actually invoked (retrieval returned context, so the LLM call is
reached) and that call raises with message `e`, `generate_answer` returns
exactly the error-tagged answer `"Error generating answer: " + e` with an
empty sources list and `context_used = false` instead of raising.  The
hypothesis names the one LLM call the source makes — on the fixed system
prompt and the user prompt built from the retrieved context and the query.
(The retrieval step cannot raise either: `search_documents` catches
internally, see `search_documents_safe`.) -/
theorem generate_answer_no_throw (E V S M : Type) (embed_query : Except E V)
    (storeSearch : V → Nat → Except E (List (Hit S M)))
    (llm : List Char → List Char → Except (List Char) (List Char))
    (query : List Char) (top_k : Nat) (e : List Char)
    (hne : search_documents embed_query storeSearch top_k ≠ [])
    (hllm : llm systemPrompt
        (userPrompt
          (joinSep nl2 (contextParts (search_documents embed_query storeSearch top_k)))
          query) = Except.error e) :
    generate_answer embed_query storeSearch llm query top_k =
      ⟨("Error generating answer: ").toList ++ e, [], false, none, some e⟩ := by
  have hEf : (search_documents embed_query storeSearch top_k).isEmpty = false := by
    cases hq : search_documents embed_query storeSearch top_k with
    | nil => exact absurd hq hne
    | cons a t => rfl
  simp [generate_answer, hEf, hllm]

/-- C7 instantiated: one retrievable hit, LLM call fails with message
`"boom"`; the result is exactly the error-tagged payload. -/
theorem generate_answer_no_throw_witness :
    generate_answer (Except.ok () : Except Unit Unit)
      (fun _ _ => Except.ok [(⟨(), ⟨some ['t'], some ['s'], ()⟩⟩ : Hit Unit Unit)])
      (fun _ _ => Except.error ("boom").toList) ['q'] 3 =
      ⟨("Error generating answer: ").toList ++ ("boom").toList, [], false, none,
        some (("boom").toList)⟩ :=
  generate_answer_no_throw Unit Unit Unit Unit (Except.ok ())
    (fun _ _ => Except.ok [⟨(), ⟨some ['t'], some ['s'], ()⟩⟩])
    (fun _ _ => Except.error ("boom").toList) ['q'] 3 ("boom").toList
    (by decide) rfl

/-! ## Web updater — `backend/rag_engine/updater.py`

`fetch_page_text` is modelled as a function parameter returning its record
`{"url", "text", "title"}` plus the optional `"error"` key set on a request or
parsing failure (in which case `text` is empty).  `add_document` as called
from the updater can raise (ingestion errors propagate out of the retriever),
so it is a parameter returning `Except` over an abstract store state `St`. -/

/-- The record `fetch_page_text` returns. -/
structure FetchResult where
  url : List Char
  text : List Char
  title : List Char
  error? : Option (List Char)
deriving DecidableEq

/-- The three per-URL outcomes recorded in the summary's `details`. -/
inductive UrlStatus
  | success
  | failed
  | skipped
deriving DecidableEq

/-- One entry of the summary's `details` list: `chunks?` is present on
success, `error?` on failure, `reason?` on skip. -/
structure UrlDetail where
  url : List Char
  status : UrlStatus
  chunks? : Option Nat
  error? : Option (List Char)
  reason? : Option (List Char)
deriving DecidableEq

/-- The metadata dictionary passed to `add_document` for a scraped page. -/
structure WebMeta where
  source : List Char
  title : List Char
  type_tag : List Char
deriving DecidableEq

/-- The `"web_page"` type tag. -/
def webPageTag : List Char := ("web_page").toList

/-- The `"insufficient_content"` skip reason. -/
def insufficientContent : List Char := ("insufficient_content").toList

/-- The summary dictionary `update_from_urls` returns. -/
structure UpdateSummary where
  total_urls : Nat
  successful : Nat
  failed : Nat
  total_chunks : Nat
  details : List UrlDetail
deriving DecidableEq

/-- The body of the per-URL loop of `update_from_urls`: fetch the page; when
`page_data["text"]` is non-empty and longer than 100 characters, call
`add_document` with metadata `{"source": url, "title": title,
"type": "web_page"}` (recording success or the caught exception); otherwise
record a skip.  Returns the detail record, the chunks added, and the store. -/
def processURL (fetch : List Char → FetchResult)
    (addDoc : List Char → WebMeta → St → Except (List Char) (Nat × St))
    (url : List Char) (store : St) : UrlDetail × Nat × St :=
  let page := fetch url
  if page.text ≠ [] ∧ 100 < page.text.length then
    match addDoc page.text ⟨url, page.title, webPageTag⟩ store with
    | .ok (n, st2) => (⟨url, .success, some n, none, none⟩, n, st2)
    | .error e => (⟨url, .failed, none, some e, none⟩, 0, store)
  else
    (⟨url, .skipped, none, none, some insufficientContent⟩, 0, store)

/-- The `for i, url in enumerate(urls, 1)` loop of `update_from_urls`,
accumulating details, the successful and failed counters, and the chunk
total. -/
def updateLoop (fetch : List Char → FetchResult)
    (addDoc : List Char → WebMeta → St → Except (List Char) (Nat × St)) :
    List (List Char) → St → List UrlDetail × Nat × Nat × Nat × St
  | [], store => ([], 0, 0, 0, store)
  | url :: rest, store =>
    let r := processURL fetch addDoc url store
    let acc := updateLoop fetch addDoc rest r.2.2
    (r.1 :: acc.1,
      (if r.1.status = UrlStatus.success then 1 else 0) + acc.2.1,
      (if r.1.status = UrlStatus.success then 0 else 1) + acc.2.2.1,
      r.2.1 + acc.2.2.2.1,
      acc.2.2.2.2)

/-- `update_from_urls(urls)` from `backend/rag_engine/updater.py`:
process each URL in order and return the summary (plus the final store
state).  `init_collection` touches only collection existence, not points, and
is not modelled. -/
def update_from_urls (fetch : List Char → FetchResult)
    (addDoc : List Char → WebMeta → St → Except (List Char) (Nat × St))
    (urls : List (List Char)) (store : St) : UpdateSummary × St :=
  let r := updateLoop fetch addDoc urls store
  (⟨urls.length, r.2.1, r.2.2.1, r.2.2.2.1, r.1⟩, r.2.2.2.2)

/-! ## Claim C8 — update_from_urls summary and skip semantics -/

theorem processURL_cases (St : Type) (fetch : List Char → FetchResult)
    (addDoc : List Char → WebMeta → St → Except (List Char) (Nat × St))
    (url : List Char) (store : St) :
    (processURL fetch addDoc url store).1.url = url ∧
    ((processURL fetch addDoc url store).1.status = UrlStatus.skipped ↔
      (fetch url).text.length ≤ 100) ∧
    ((processURL fetch addDoc url store).1.status = UrlStatus.success →
      (processURL fetch addDoc url store).1.chunks? =
        some (processURL fetch addDoc url store).2.1) ∧
    ((processURL fetch addDoc url store).1.status ≠ UrlStatus.success →
      (processURL fetch addDoc url store).1.chunks? = none ∧
      (processURL fetch addDoc url store).2.1 = 0) ∧
    ((processURL fetch addDoc url store).1.status ≠ UrlStatus.skipped →
      (∃ n st2, addDoc (fetch url).text ⟨url, (fetch url).title, webPageTag⟩ store =
          Except.ok (n, st2) ∧
        (processURL fetch addDoc url store).1.status = UrlStatus.success ∧
        (processURL fetch addDoc url store).1.chunks? = some n) ∨
      (∃ e, addDoc (fetch url).text ⟨url, (fetch url).title, webPageTag⟩ store =
          Except.error e ∧
        (processURL fetch addDoc url store).1.status = UrlStatus.failed ∧
        (processURL fetch addDoc url store).1.error? = some e)) := by
  by_cases hcond : (fetch url).text ≠ [] ∧ 100 < (fetch url).text.length
  · have hlen : ¬ (fetch url).text.length ≤ 100 := Nat.not_le.mpr hcond.2
    cases hadd : addDoc (fetch url).text ⟨url, (fetch url).title, webPageTag⟩ store with
    | ok p =>
      obtain ⟨n, st2⟩ := p
      have hp : processURL fetch addDoc url store =
          (⟨url, UrlStatus.success, some n, none, none⟩, n, st2) := by
        unfold processURL
        rw [if_pos hcond, hadd]
      rw [hp]
      refine ⟨rfl, ?_, ?_, ?_, ?_⟩
      · simp [hlen]
      · intro _; rfl
      · intro hne; exact absurd rfl hne
      · intro _; exact Or.inl ⟨n, st2, rfl, rfl, rfl⟩
    | error e =>
      have hp : processURL fetch addDoc url store =
          (⟨url, UrlStatus.failed, none, some e, none⟩, 0, store) := by
        unfold processURL
        rw [if_pos hcond, hadd]
      rw [hp]
      refine ⟨rfl, ?_, ?_, ?_, ?_⟩
      · simp [hlen]
      · intro hs; exact absurd hs (by simp)
      · intro _; exact ⟨rfl, rfl⟩
      · intro _; exact Or.inr ⟨e, rfl, rfl, rfl⟩
  · have hp : processURL fetch addDoc url store =
        (⟨url, UrlStatus.skipped, none, none, some insufficientContent⟩, 0, store) := by
      unfold processURL
      rw [if_neg hcond]
    have hlen : (fetch url).text.length ≤ 100 := by
      rcases Decidable.not_and_iff_or_not.mp hcond with h | h
      · have : (fetch url).text = [] := Decidable.not_not.mp h
        rw [this]
        simp
      · omega
    rw [hp]
    refine ⟨rfl, ?_, ?_, ?_, ?_⟩
    · simp [hlen]
    · intro hs; exact absurd hs (by simp)
    · intro _; exact ⟨rfl, rfl⟩
    · intro hne; exact absurd rfl hne

theorem updateLoop_spec (St : Type) (fetch : List Char → FetchResult)
    (addDoc : List Char → WebMeta → St → Except (List Char) (Nat × St)) :
    ∀ (urls : List (List Char)) (store : St),
      (updateLoop fetch addDoc urls store).1.map (fun d => d.url) = urls ∧
      (∀ d ∈ (updateLoop fetch addDoc urls store).1,
        (d.status = UrlStatus.skipped ↔ (fetch d.url).text.length ≤ 100)) ∧
      (updateLoop fetch addDoc urls store).2.1 =
        (updateLoop fetch addDoc urls store).1.countP
          (fun d => decide (d.status = UrlStatus.success)) ∧
      (updateLoop fetch addDoc urls store).2.2.1 =
        (updateLoop fetch addDoc urls store).1.countP
          (fun d => !(decide (d.status = UrlStatus.success))) ∧
      (updateLoop fetch addDoc urls store).2.2.2.1 =
        ((updateLoop fetch addDoc urls store).1.filterMap (fun d => d.chunks?)).sum ∧
      (∀ d ∈ (updateLoop fetch addDoc urls store).1, d.status ≠ UrlStatus.skipped →
        ∃ st,
          (∃ n st2, addDoc (fetch d.url).text ⟨d.url, (fetch d.url).title, webPageTag⟩ st =
              Except.ok (n, st2) ∧
            d.status = UrlStatus.success ∧ d.chunks? = some n) ∨
          (∃ e, addDoc (fetch d.url).text ⟨d.url, (fetch d.url).title, webPageTag⟩ st =
              Except.error e ∧
            d.status = UrlStatus.failed ∧ d.error? = some e)) := by
  intro urls
  induction urls with
  | nil =>
    intro store
    refine ⟨rfl, ?_, rfl, rfl, rfl, ?_⟩ <;> intro d hd <;> simp [updateLoop] at hd
  | cons url rest ih =>
    intro store
    obtain ⟨hurl, hskip, hcsome, hcnone, hroute⟩ :=
      processURL_cases St fetch addDoc url store
    obtain ⟨ih1, ih2, ih3, ih4, ih5, ih6⟩ :=
      ih (processURL fetch addDoc url store).2.2
    have hloop : updateLoop fetch addDoc (url :: rest) store =
        ((processURL fetch addDoc url store).1 ::
            (updateLoop fetch addDoc rest (processURL fetch addDoc url store).2.2).1,
          (if (processURL fetch addDoc url store).1.status = UrlStatus.success
            then 1 else 0) +
            (updateLoop fetch addDoc rest (processURL fetch addDoc url store).2.2).2.1,
          (if (processURL fetch addDoc url store).1.status = UrlStatus.success
            then 0 else 1) +
            (updateLoop fetch addDoc rest
              (processURL fetch addDoc url store).2.2).2.2.1,
          (processURL fetch addDoc url store).2.1 +
            (updateLoop fetch addDoc rest
              (processURL fetch addDoc url store).2.2).2.2.2.1,
          (updateLoop fetch addDoc rest
            (processURL fetch addDoc url store).2.2).2.2.2.2) := rfl
    rw [hloop]
    refine ⟨?_, ?_, ?_, ?_, ?_, ?_⟩
    · simp only [List.map_cons, ih1, hurl]
    · intro d hd
      rcases List.mem_cons.mp hd with h | h
      · rw [h, hurl]
        exact hskip
      · exact ih2 d h
    · simp only [List.countP_cons, ih3]
      by_cases hs : (processURL fetch addDoc url store).1.status = UrlStatus.success
      · simp [hs, Nat.add_comm]
      · simp [hs]
    · simp only [List.countP_cons, ih4]
      by_cases hs : (processURL fetch addDoc url store).1.status = UrlStatus.success
      · simp [hs]
      · simp [hs, Nat.add_comm]
    · simp only [List.filterMap_cons]
      by_cases hs : (processURL fetch addDoc url store).1.status = UrlStatus.success
      · rw [hcsome hs]
        simp only [List.sum_cons]
        rw [ih5]
      · obtain ⟨hn, hz⟩ := hcnone hs
        rw [hn, hz, ih5]
        simp
    · intro d hd hns
      rcases List.mem_cons.mp hd with h | h
      · subst h
        refine ⟨store, ?_⟩
        rw [hurl]
        exact hroute hns
      · exact ih6 d h hns

/-- C8 counterexample: the claim as stated fails.  A URL whose fetch raises a
network error is returned by `fetch_page_text` with empty text and the
`"error"` key set — it was never successfully fetched — yet `update_from_urls`
records it with status `"skipped"` and counts it under `failed`; the summary
carries no separate skip counter. -/
def cexFetch : List Char → FetchResult :=
  fun u => ⟨u, [], [], some (("connection error").toList)⟩

/-- An add-document stub for the counterexample (never reached). -/
def cexAddDoc : List Char → WebMeta → Unit → Except (List Char) (Nat × Unit) :=
  fun t _ s => Except.ok (t.length, s)

/-- C8 counterexample, see `cexFetch`: the fetch of `"http://x"` errors (it is
not fetched), yet its detail status is `skipped` and the failure counter — not
any skip counter, which does not exist — is incremented. -/
theorem update_from_urls_cex :
    (cexFetch (("http://x").toList)).error?.isSome = true ∧
    (update_from_urls cexFetch cexAddDoc [("http://x").toList] ()).1.details.map
        (fun d => d.status) = [UrlStatus.skipped] ∧
    (update_from_urls cexFetch cexAddDoc [("http://x").toList] ()).1.failed = 1 ∧
    (update_from_urls cexFetch cexAddDoc [("http://x").toList] ()).1.successful = 0 := by
  decide

/-- C8 (amended): `update_from_urls` returns a summary with one detail per URL
in order; a URL is marked skipped exactly when the fetch step yields text of
at most 100 characters (fetch failures yield empty text, hence are marked
skipped too); `successful` counts the success details while `failed` counts
all non-success details (skips included — there is no separate skip counter);
`total_chunks` sums the per-success chunk counts; and every non-skipped URL is
routed through `add_document` on the fetched text with metadata
`{source: url, title, type: "web_page"}`, succeeding or failing with it. -/
theorem update_from_urls_spec (St : Type) (fetch : List Char → FetchResult)
    (addDoc : List Char → WebMeta → St → Except (List Char) (Nat × St))
    (urls : List (List Char)) (store : St) :
    (update_from_urls fetch addDoc urls store).1.total_urls = urls.length ∧
    (update_from_urls fetch addDoc urls store).1.details.map (fun d => d.url) = urls ∧
    (∀ d ∈ (update_from_urls fetch addDoc urls store).1.details,
      (d.status = UrlStatus.skipped ↔ (fetch d.url).text.length ≤ 100)) ∧
    (update_from_urls fetch addDoc urls store).1.successful =
      (update_from_urls fetch addDoc urls store).1.details.countP
        (fun d => decide (d.status = UrlStatus.success)) ∧
    (update_from_urls fetch addDoc urls store).1.failed =
      (update_from_urls fetch addDoc urls store).1.details.countP
        (fun d => !(decide (d.status = UrlStatus.success))) ∧
    (update_from_urls fetch addDoc urls store).1.total_chunks =
      ((update_from_urls fetch addDoc urls store).1.details.filterMap
        (fun d => d.chunks?)).sum ∧
    (∀ d ∈ (update_from_urls fetch addDoc urls store).1.details,
      d.status ≠ UrlStatus.skipped →
      ∃ st,
        (∃ n st2, addDoc (fetch d.url).text ⟨d.url, (fetch d.url).title, webPageTag⟩ st =
            Except.ok (n, st2) ∧
          d.status = UrlStatus.success ∧ d.chunks? = some n) ∨
        (∃ e, addDoc (fetch d.url).text ⟨d.url, (fetch d.url).title, webPageTag⟩ st =
            Except.error e ∧
          d.status = UrlStatus.failed ∧ d.error? = some e)) := by
  obtain ⟨h1, h2, h3, h4, h5, h6⟩ := updateLoop_spec St fetch addDoc urls store
  exact ⟨rfl, h1, h2, h3, h4, h5, h6⟩

/-- Fetch stub for the C8 witness: a page with 101 characters of text. -/
def wFetch : List Char → FetchResult :=
  fun u => ⟨u, List.replicate 101 'a', ['T'], none⟩

/-- Add-document stub for the C8 witness. -/
def wAddDoc : List Char → WebMeta → Unit → Except (List Char) (Nat × Unit) :=
  fun t _ s => Except.ok (t.length, s)

/-- C8 amended, instantiated at one URL whose page has 101 characters. -/
theorem update_from_urls_spec_witness :
    (update_from_urls wFetch wAddDoc [['u']] ()).1.total_urls = [['u']].length ∧
    (update_from_urls wFetch wAddDoc [['u']] ()).1.details.map (fun d => d.url) =
      [['u']] ∧
    (∀ d ∈ (update_from_urls wFetch wAddDoc [['u']] ()).1.details,
      (d.status = UrlStatus.skipped ↔ (wFetch d.url).text.length ≤ 100)) ∧
    (update_from_urls wFetch wAddDoc [['u']] ()).1.successful =
      (update_from_urls wFetch wAddDoc [['u']] ()).1.details.countP
        (fun d => decide (d.status = UrlStatus.success)) ∧
    (update_from_urls wFetch wAddDoc [['u']] ()).1.failed =
      (update_from_urls wFetch wAddDoc [['u']] ()).1.details.countP
        (fun d => !(decide (d.status = UrlStatus.success))) ∧
    (update_from_urls wFetch wAddDoc [['u']] ()).1.total_chunks =
      ((update_from_urls wFetch wAddDoc [['u']] ()).1.details.filterMap
        (fun d => d.chunks?)).sum ∧
    (∀ d ∈ (update_from_urls wFetch wAddDoc [['u']] ()).1.details,
      d.status ≠ UrlStatus.skipped →
      ∃ st,
        (∃ n st2, wAddDoc (wFetch d.url).text ⟨d.url, (wFetch d.url).title, webPageTag⟩ st =
            Except.ok (n, st2) ∧
          d.status = UrlStatus.success ∧ d.chunks? = some n) ∨
        (∃ e, wAddDoc (wFetch d.url).text ⟨d.url, (wFetch d.url).title, webPageTag⟩ st =
            Except.error e ∧
          d.status = UrlStatus.failed ∧ d.error? = some e)) :=
  update_from_urls_spec Unit wFetch wAddDoc [['u']] ()

/-! ## PDF loader — `rag_engine/pdf_loader.py`

`load_pdf` is modelled from the point where the file exists and `PdfReader`
has produced the per-page `extract_text()` results (`pages`, one entry per
page); file-system and parsing failures land in the enclosing `try/except`
and are not claim-relevant.  As in the updater, `add_document` is an
`Except`-valued parameter over an abstract store state. -/

/-- `"\n\n".join(text_parts)` where `text_parts` keeps the non-empty page
texts (`if page_text:`). -/
def extractFullText (pages : List (List Char)) : List Char :=
  joinSep nl2 (pages.filter (fun p => !p.isEmpty))

/-- `os.path.basename`: the final path component. -/
def basenameL (path : List Char) : List Char :=
  (path.reverse.takeWhile (fun c => c != '/')).reverse

/-- The metadata dictionary passed to `add_document` for a PDF. -/
structure PdfMeta where
  source : List Char
  type_tag : List Char
  pages : Nat
  file_path : List Char
deriving DecidableEq

/-- The result dictionary of `load_pdf`; optional keys are present only on
the corresponding branch. -/
structure PdfResult where
  status : List Char
  error? : Option (List Char)
  file? : Option (List Char)
  pages? : Option Nat
  chunks_added? : Option Nat
  text_length? : Option Nat
deriving DecidableEq

/-- The `"Insufficient text extracted from PDF"` error message. -/
def insufficientPdfMsg : List Char :=
  ("Insufficient text extracted from PDF").toList

/-- `load_pdf(file_path)` from `rag_engine/pdf_loader.py`: join the per-page
texts; if the combined text is empty or shorter than 100 characters, return
the failure record without ingesting; otherwise ingest via `add_document`
with metadata `{source: basename, type: "pdf", pages, file_path}` and report
the chunk count (a raised ingestion error is caught by the enclosing
`try/except` into a failure record). -/
def load_pdf (addDoc : List Char → PdfMeta → St → Except (List Char) (Nat × St))
    (file_path : List Char) (pages : List (List Char)) (store : St) :
    PdfResult × St :=
  let full_text := extractFullText pages
  if full_text = [] ∨ full_text.length < 100 then
    (⟨("failed").toList, some insufficientPdfMsg, none, none, none, none⟩, store)
  else
    match addDoc full_text
        ⟨basenameL file_path, ("pdf").toList, pages.length, file_path⟩ store with
    | .ok (n, st2) =>
        (⟨("success").toList, none, some file_path, some pages.length, some n,
          some full_text.length⟩, st2)
    | .error e => (⟨("failed").toList, some e, none, none, none, none⟩, store)

/-! ## Claim C9 — short PDFs are rejected without ingestion -/

/-- C9: when the combined extracted text is under 100 characters, `load_pdf`
returns the failure record with error `"Insufficient text extracted from
PDF"` and the store is unchanged — the conclusion holds for every `addDoc`
whatsoever, i.e. `add_document` is never consulted. -/
theorem load_pdf_insufficient (St : Type)
    (addDoc : List Char → PdfMeta → St → Except (List Char) (Nat × St))
    (file_path : List Char) (pages : List (List Char)) (store : St)
    (h : (extractFullText pages).length < 100) :
    load_pdf addDoc file_path pages store =
      (⟨("failed").toList, some insufficientPdfMsg, none, none, none, none⟩,
        store) := by
  unfold load_pdf
  rw [if_pos (Or.inr h)]

/-- Add-document stub for the C9 witness (demonstrably never reached). -/
def pdfAddDocW : List Char → PdfMeta → Unit → Except (List Char) (Nat × Unit) :=
  fun t _ s => Except.ok (t.length, s)

/-- C9 instantiated: a one-page PDF whose extracted text has 50 characters. -/
theorem load_pdf_insufficient_witness :
    load_pdf pdfAddDocW ("doc.pdf").toList [List.replicate 50 'a'] () =
      (⟨("failed").toList, some insufficientPdfMsg, none, none, none, none⟩,
        ()) :=
  load_pdf_insufficient Unit pdfAddDocW ("doc.pdf").toList
    [List.replicate 50 'a'] () (by decide)

end CodeLens
